import Mathlib

/-!
Verification of the demand-forecasting and inventory-reorder core of the
Smart Shopkeeper Assistant (src/app.py) against its specification.

Calendar dates are modelled as integer day numbers; quantities recorded in the
sales table are natural numbers; fractional values (means, reorder points) are
rationals. A (Date, Quantity) table is a list of pairs; the sales table is a
list of SaleEvent records.
-/

namespace SmartShop

/-- A recorded sale: one row of the session sales table in src/app.py
(columns Date, Product, Quantity). Dates are integer day numbers. -/
structure SaleEvent where
  date : Int
  product : String
  qty : Nat
deriving DecidableEq

/-- Sum of the Quantity column over the rows of a (Date, Quantity) table that
carry a given date: the per-date result of a groupby-sum. -/
def qtyOn (rows : List (Int × Nat)) (d : Int) : Nat :=
  ((rows.filter (fun r => decide (r.1 = d))).map (fun r => r.2)).sum

/-- Minimum of the Date column of a table (0 on an empty table, unused there). -/
def minD : List (Int × Nat) → Int
  | [] => 0
  | r :: rs => rs.foldl (fun m x => min m x.1) r.1

/-- Maximum of the Date column of a table (0 on an empty table, unused there). -/
def maxD : List (Int × Nat) → Int
  | [] => 0
  | r :: rs => rs.foldl (fun m x => max m x.1) r.1

/-- Gap-filled daily table: group by Date summing Quantity, sort ascending, and
reindex at daily frequency from the min to the max date, filling missing days
with 0. This embeds both the prod_hist pipeline of the Forecasting page
(src/app.py lines 284-291) and the resample step inside naive_forecast
(src/app.py line 197). -/
def gapFill (rows : List (Int × Nat)) : List (Int × Nat) :=
  match rows with
  | [] => []
  | _ :: _ =>
    (List.range ((maxD rows - minD rows).toNat + 1)).map
      (fun i : Nat => (minD rows + (i : Int), qtyOn rows (minD rows + (i : Int))))

/-- Floor of a rational, computed as floor division of numerator by
denominator. -/
def ratFloor (q : ℚ) : Int := Int.fdiv q.num (q.den : Int)

/-- Bankers rounding of a rational to an integer: the semantics of the round
builtin used in int(round(last_mean)) (src/app.py line 201) and of the pandas
Series round applied to the clipped Prophet predictions (line 313). -/
def pyRound (q : ℚ) : Int :=
  if q - (ratFloor q : ℚ) < 1 / 2 then ratFloor q
  else if 1 / 2 < q - (ratFloor q : ℚ) then ratFloor q + 1
  else if ratFloor q % 2 = 0 then ratFloor q else ratFloor q + 1

/-- Arithmetic mean of a list of rationals, as the pandas Series mean; an empty
list gives 0 (division by zero in ℚ). -/
def listMean (l : List ℚ) : ℚ := l.sum / (l.length : ℚ)

/-- Fallback forecast, embedding naive_forecast (src/app.py lines 191-202): on
an empty history, days_ahead points starting today with value 0; otherwise the
history is resampled to daily frequency, the mean of the last min(7, len)
daily quantities is taken, and every forecast point repeats its rounded value
on the days immediately after the last history date. -/
def naiveForecast (history : List (Int × Nat)) (daysAhead : Nat) (today : Int) :
    List (Int × Int) :=
  match history with
  | [] => (List.range daysAhead).map (fun i : Nat => (today + (i : Int), 0))
  | _ :: _ =>
    let h := gapFill history
    let window := min 7 h.length
    let lastMean : ℚ :=
      if window = 0 then 0
      else listMean ((h.map (fun r => (r.2 : ℚ))).drop (h.length - window))
    (List.range daysAhead).map (fun i : Nat => (maxD h + 1 + (i : Int), pyRound lastMean))

/-- Modelled from the spec: the Prophet fit and predict calls are external
library code not part of this repository. Per the spec the trend model predicts
over a future frame holding the history dates plus horizon further consecutive
days past the last historical date; the predicted values are abstracted as a
function yhat from date to rational. The post-processing of src/app.py lines
305-314 (keep rows with ds strictly after the last history date, clip negative
predictions to 0, round to integers) is embedded directly. -/
def prophetForecast (series : List (Int × Nat)) (horizon : Nat) (yhat : Int → ℚ) :
    List (Int × Int) :=
  ((series.map (fun r => r.1)
      ++ (List.range horizon).map (fun i : Nat => maxD series + 1 + (i : Int))).filter
    (fun d => decide (maxD series < d))).map
    (fun d => (d, pyRound (max (yhat d) 0)))

/-- Strategy selection of the Forecasting page (src/app.py lines 300-325):
Prophet is used when the library is available and the series has at least 2
non-null points; a failure inside fit or predict (modelled by an error value)
is caught and replaced by naive_forecast, as is every other case. -/
def forecastEngine (useProphet : Bool) (series : List (Int × Nat)) (horizon : Nat)
    (prophetFit : Except Unit (Int → ℚ)) (today : Int) : List (Int × Int) :=
  if useProphet = true ∧ 2 ≤ series.length then
    match prophetFit with
    | Except.ok yhat => prophetForecast series horizon yhat
    | Except.error _ => naiveForecast series horizon today
  else
    naiveForecast series horizon today

/-- Daily series build of the Forecasting page. The guard at src/app.py lines
276-278 stops the page when no sales rows exist; the spec names this outcome
InsufficientDataError. Modelled from the spec: the stop is represented as an
error result. With data present, lines 284-291 group the rows by date, sum,
sort and reindex daily, which is gapFill. -/
def buildDailySeries (rows : List (Int × Nat)) : Except String (List (Int × Nat)) :=
  if rows.isEmpty then Except.error "InsufficientDataError"
  else Except.ok (gapFill rows)

/-- Stock health levels of the Inventory Dashboard. -/
inductive Health where
  | Critical
  | Low
  | Healthy
deriving DecidableEq

/-- Stock health classification with badge color, embedding health_and_color
(src/app.py lines 422-427). -/
def health_and_color (currentStock : Int) (reorderPoint : ℚ) : Health × String :=
  if currentStock ≤ 0 then (Health.Critical, "#D7263D")
  else if (currentStock : ℚ) < reorderPoint then (Health.Low, "#FF8C00")
  else (Health.Healthy, "#2ECC71")

/-- Average daily demand of the Forecasting page (src/app.py line 338): mean of
the predicted sales when the forecast is non-empty, 0 otherwise. -/
def pageAvgDemand (forecast : List (Int × Int)) : ℚ :=
  if 0 < forecast.length then listMean (forecast.map (fun p => (p.2 : ℚ))) else 0

/-- Reorder point of the Forecasting page (src/app.py line 339). -/
def pageReorderPoint (forecast : List (Int × Int)) (leadTimeDays : Nat) : ℚ :=
  pageAvgDemand forecast * (leadTimeDays : ℚ)

/-- Distinct products appearing in the sales table (groupby keys). -/
def productsOf (evs : List SaleEvent) : List String :=
  (evs.map (fun e => e.product)).dedup

/-- Total quantity sold of one product over a sales table (groupby-sum). -/
def totalSoldOf (evs : List SaleEvent) (p : String) : Nat :=
  ((evs.filter (fun e => decide (e.product = p))).map (fun e => e.qty)).sum

/-- Rows of the sales table whose date is on or after recent_from
(src/app.py lines 399-401). -/
def recentEvents (evs : List SaleEvent) (recentFrom : Int) : List SaleEvent :=
  evs.filter (fun e => decide (recentFrom ≤ e.date))

/-- Per-product sums of the recent groupby (src/app.py lines 400-405) as an
association list keyed by product. -/
def recentPairs (evs : List SaleEvent) (recentFrom : Int) : List (String × Nat) :=
  (productsOf (recentEvents evs recentFrom)).map
    (fun p => (p, totalSoldOf (recentEvents evs recentFrom) p))

/-- Left-merge lookup with fillna(0) (src/app.py line 407): the recent sum of a
product, 0 when the product has no row on the recent side. -/
def lookupD (ps : List (String × Nat)) (p : String) : Nat :=
  match ps.find? (fun r => decide (r.1 = p)) with
  | some r => r.2
  | none => 0

/-- One row of the dashboard summary table. -/
structure ProductSummary where
  product : String
  totalSold : Nat
  soldRecent : Nat
  avgDailyRecent : ℚ
  currentStock : Nat
  reorderPoint : ℚ
  health : Health
deriving DecidableEq

/-- Inventory Dashboard summary construction (src/app.py lines 396-429): totals
per product, recent-window sums left-merged with 0 fill, average daily recent
quantity with the window guard, current stock from the session map defaulting
to 0, reorder point, and health. -/
def summarize (evs : List SaleEvent) (stock : String → Option Nat)
    (windowDays : Int) (leadTimeDays : Nat) (today : Int) : List ProductSummary :=
  let recentFrom := today - windowDays
  let rp := recentPairs evs recentFrom
  (productsOf evs).map (fun p =>
    let sr := lookupD rp p
    let avg : ℚ := (sr : ℚ) / (if 0 < windowDays then (windowDays : ℚ) else 1)
    let cs : Nat := (stock p).getD 0
    let rpt : ℚ := avg * (leadTimeDays : ℚ)
    { product := p
      totalSold := totalSoldOf evs p
      soldRecent := sr
      avgDailyRecent := avg
      currentStock := cs
      reorderPoint := rpt
      health := (health_and_color (cs : Int) rpt).1 })

/-- Shape of a DailySeries in the spec's sense: non-empty, one entry per day,
dates consecutive from some first date. -/
def IsDaily (l : List (Int × Nat)) : Prop :=
  l ≠ [] ∧ ∃ d0 : Int,
    l.map (fun r => r.1) = (List.range l.length).map (fun i : Nat => d0 + (i : Int))

/-! Helper lemmas about the date folds. -/

lemma foldl_min_le_init (l : List (Int × Nat)) (a : Int) :
    l.foldl (fun m x => min m x.1) a ≤ a := by
  induction l generalizing a with
  | nil => simp
  | cons r rs ih => exact le_trans (ih (min a r.1)) (min_le_left _ _)

lemma foldl_min_le_mem (l : List (Int × Nat)) (a : Int) (x : Int × Nat) (hx : x ∈ l) :
    l.foldl (fun m x => min m x.1) a ≤ x.1 := by
  induction l generalizing a with
  | nil => cases hx
  | cons r rs ih =>
    rcases List.mem_cons.mp hx with h | h
    · subst h
      exact le_trans (foldl_min_le_init rs _) (min_le_right _ _)
    · exact ih _ h

lemma le_foldl_min (l : List (Int × Nat)) : ∀ a b : Int, b ≤ a →
    (∀ x ∈ l, b ≤ x.1) → b ≤ l.foldl (fun m x => min m x.1) a := by
  induction l with
  | nil => intro a b ha _; simpa using ha
  | cons r rs ih =>
    intro a b ha hl
    exact ih (min a r.1) b (le_min ha (hl r (List.mem_cons_self r rs)))
      (fun x hx => hl x (List.mem_cons_of_mem r hx))

lemma init_le_foldl_max (l : List (Int × Nat)) (a : Int) :
    a ≤ l.foldl (fun m x => max m x.1) a := by
  induction l generalizing a with
  | nil => simp
  | cons r rs ih => exact le_trans (le_max_left _ _) (ih (max a r.1))

lemma mem_le_foldl_max (l : List (Int × Nat)) (a : Int) (x : Int × Nat) (hx : x ∈ l) :
    x.1 ≤ l.foldl (fun m x => max m x.1) a := by
  induction l generalizing a with
  | nil => cases hx
  | cons r rs ih =>
    rcases List.mem_cons.mp hx with h | h
    · subst h
      exact le_trans (le_max_right _ _) (init_le_foldl_max rs _)
    · exact ih _ h

lemma foldl_max_le (l : List (Int × Nat)) : ∀ a b : Int, a ≤ b →
    (∀ x ∈ l, x.1 ≤ b) → l.foldl (fun m x => max m x.1) a ≤ b := by
  induction l with
  | nil => intro a b ha _; simpa using ha
  | cons r rs ih =>
    intro a b ha hl
    exact ih (max a r.1) b (max_le ha (hl r (List.mem_cons_self r rs)))
      (fun x hx => hl x (List.mem_cons_of_mem r hx))

lemma minD_le_mem (rows : List (Int × Nat)) (x : Int × Nat) (hx : x ∈ rows) :
    minD rows ≤ x.1 := by
  cases rows with
  | nil => cases hx
  | cons r rs =>
    rcases List.mem_cons.mp hx with h | h
    · subst h; exact foldl_min_le_init rs x.1
    · exact foldl_min_le_mem rs r.1 x h

lemma mem_le_maxD (rows : List (Int × Nat)) (x : Int × Nat) (hx : x ∈ rows) :
    x.1 ≤ maxD rows := by
  cases rows with
  | nil => cases hx
  | cons r rs =>
    rcases List.mem_cons.mp hx with h | h
    · subst h; exact init_le_foldl_max rs x.1
    · exact mem_le_foldl_max rs r.1 x h

lemma le_minD (rows : List (Int × Nat)) (r : Int × Nat) (hr : r ∈ rows) (b : Int)
    (hb : ∀ x ∈ rows, b ≤ x.1) : b ≤ minD rows := by
  cases rows with
  | nil => cases hr
  | cons a rs =>
    exact le_foldl_min rs a.1 b (hb a (List.mem_cons_self a rs))
      (fun x hx => hb x (List.mem_cons_of_mem a hx))

lemma maxD_le (rows : List (Int × Nat)) (r : Int × Nat) (hr : r ∈ rows) (b : Int)
    (hb : ∀ x ∈ rows, x.1 ≤ b) : maxD rows ≤ b := by
  cases rows with
  | nil => cases hr
  | cons a rs =>
    exact foldl_max_le rs a.1 b (hb a (List.mem_cons_self a rs))
      (fun x hx => hb x (List.mem_cons_of_mem a hx))

lemma minD_le_maxD (rows : List (Int × Nat)) (r : Int × Nat) (hr : r ∈ rows) :
    minD rows ≤ maxD rows :=
  le_trans (minD_le_mem rows r hr) (mem_le_maxD rows r hr)

/-! Helper lemmas about qtyOn. -/

lemma qtyOn_cons (r : Int × Nat) (rows : List (Int × Nat)) (d : Int) :
    qtyOn (r :: rows) d = (if r.1 = d then r.2 else 0) + qtyOn rows d := by
  by_cases h : r.1 = d <;> simp [qtyOn, List.filter_cons, h]

lemma qtyOn_eq_zero (rows : List (Int × Nat)) (d : Int)
    (h : ∀ x ∈ rows, x.1 ≠ d) : qtyOn rows d = 0 := by
  have hf : rows.filter (fun r => decide (r.1 = d)) = [] :=
    List.filter_eq_nil_iff.mpr (fun x hx => by simpa using h x hx)
  simp [qtyOn, hf]

/-! Helper lemmas about gapFill. -/

lemma gapFill_cons_eq (rows : List (Int × Nat)) (hne : rows ≠ []) :
    gapFill rows = (List.range ((maxD rows - minD rows).toNat + 1)).map
      (fun i : Nat => (minD rows + (i : Int), qtyOn rows (minD rows + (i : Int)))) := by
  cases rows with
  | nil => exact absurd rfl hne
  | cons r rs => rfl

lemma list_range_map_sum (g : Nat → Nat) (n : Nat) :
    ((List.range n).map g).sum = ∑ i ∈ Finset.range n, g i := by
  induction n with
  | zero => simp
  | succ n ih =>
    rw [List.range_succ, List.map_append, List.sum_append, Finset.sum_range_succ, ih]
    simp

lemma sum_qtyOn_range (lo : Int) (n : Nat) (rows : List (Int × Nat))
    (hb : ∀ x ∈ rows, lo ≤ x.1 ∧ x.1 < lo + (n : Int)) :
    (∑ i ∈ Finset.range n, qtyOn rows (lo + (i : Int)))
      = (rows.map (fun r => r.2)).sum := by
  induction rows with
  | nil => simp [qtyOn]
  | cons r rs ih =>
    have hr := hb r (List.mem_cons_self r rs)
    have hsplit : ∀ i ∈ Finset.range n,
        qtyOn (r :: rs) (lo + (i : Int))
          = (if i = (r.1 - lo).toNat then r.2 else 0) + qtyOn rs (lo + (i : Int)) := by
      intro i _
      rw [qtyOn_cons]
      congr 1
      have hiff : (r.1 = lo + (i : Int)) ↔ (i = (r.1 - lo).toNat) := by omega
      by_cases h : i = (r.1 - lo).toNat
      · rw [if_pos h, if_pos (hiff.mpr h)]
      · rw [if_neg h, if_neg (fun hc => h (hiff.mp hc))]
    rw [Finset.sum_congr rfl hsplit, Finset.sum_add_distrib,
      Finset.sum_ite_eq' (Finset.range n) ((r.1 - lo).toNat) (fun _ => r.2)]
    have hmem : (r.1 - lo).toNat ∈ Finset.range n := by
      rw [Finset.mem_range]; omega
    rw [if_pos hmem, ih (fun x hx => hb x (List.mem_cons_of_mem r hx))]
    simp

/-- C8: the sum of the quantities of the gap-filled daily series equals the sum
of the quantities of the original per-product rows: the groupby-sum and the
zero-filling of calendar gaps in the series build (src/app.py lines 284-291,
embedded as gapFill) lose no data. -/
theorem gapFill_sum_preserved (rows : List (Int × Nat)) :
    ((gapFill rows).map (fun r => r.2)).sum = (rows.map (fun r => r.2)).sum := by
  cases rows with
  | nil => rfl
  | cons r rs =>
    rw [gapFill_cons_eq (r :: rs) (List.cons_ne_nil r rs), List.map_map]
    have hcomp : ((fun x : Int × Nat => x.2) ∘
        (fun i : Nat => (minD (r :: rs) + (i : Int), qtyOn (r :: rs) (minD (r :: rs) + (i : Int)))))
        = fun i : Nat => qtyOn (r :: rs) (minD (r :: rs) + (i : Int)) := rfl
    rw [hcomp, list_range_map_sum]
    apply sum_qtyOn_range
    intro x hx
    have h1 := minD_le_mem (r :: rs) x hx
    have h2 := mem_le_maxD (r :: rs) x hx
    have h3 := minD_le_maxD (r :: rs) r (List.mem_cons_self r rs)
    omega

lemma qtyOn_of_nodup (rows : List (Int × Nat))
    (hnd : (rows.map (fun r => r.1)).Nodup) (r : Int × Nat) (hr : r ∈ rows) :
    qtyOn rows r.1 = r.2 := by
  induction rows with
  | nil => cases hr
  | cons a rs ih =>
    rw [qtyOn_cons]
    rw [List.map_cons, List.nodup_cons] at hnd
    rcases List.mem_cons.mp hr with h | h
    · subst h
      rw [if_pos rfl]
      have hz : qtyOn rs r.1 = 0 := by
        apply qtyOn_eq_zero
        intro x hx he
        exact hnd.1 (he ▸ List.mem_map_of_mem (fun r => r.1) hx)
      omega
    · have hne : a.1 ≠ r.1 := by
        intro he
        exact hnd.1 (he ▸ List.mem_map_of_mem (fun r => r.1) h)
      rw [if_neg hne, ih hnd.2 h]
      omega

/-! Facts about lists with the DailySeries shape. -/

lemma isDaily_get (l : List (Int × Nat)) (d0 : Int)
    (hmap : l.map (fun r => r.1) = (List.range l.length).map (fun i : Nat => d0 + (i : Int)))
    (i : Nat) (hi : i < l.length) : (l[i]).1 = d0 + (i : Int) := by
  have hlen : i < (l.map (fun r => r.1)).length := by simpa using hi
  have h := List.getElem_of_eq hmap hlen
  rw [List.getElem_map, List.getElem_map, List.getElem_range] at h
  exact h

lemma isDaily_bounds (l : List (Int × Nat)) (d0 : Int)
    (hmap : l.map (fun r => r.1) = (List.range l.length).map (fun i : Nat => d0 + (i : Int))) :
    ∀ x ∈ l, d0 ≤ x.1 ∧ x.1 ≤ d0 + ((l.length : Int) - 1) := by
  intro x hx
  have hm : x.1 ∈ l.map (fun r => r.1) := List.mem_map_of_mem _ hx
  rw [hmap] at hm
  rcases List.mem_map.mp hm with ⟨i, hi, he⟩
  rw [List.mem_range] at hi
  omega

lemma isDaily_minD (l : List (Int × Nat)) (d0 : Int) (hne : l ≠ [])
    (hmap : l.map (fun r => r.1) = (List.range l.length).map (fun i : Nat => d0 + (i : Int))) :
    minD l = d0 := by
  have hlen : 0 < l.length := List.length_pos.mpr hne
  have h0 : (l[0]).1 = d0 + ((0 : Nat) : Int) := isDaily_get l d0 hmap 0 hlen
  have hmem : l[0] ∈ l := List.getElem_mem hlen
  have hle : minD l ≤ d0 := by
    have := minD_le_mem l (l[0]) hmem
    omega
  have hge : d0 ≤ minD l :=
    le_minD l (l[0]) hmem d0 (fun x hx => (isDaily_bounds l d0 hmap x hx).1)
  omega

lemma isDaily_maxD (l : List (Int × Nat)) (d0 : Int) (hne : l ≠ [])
    (hmap : l.map (fun r => r.1) = (List.range l.length).map (fun i : Nat => d0 + (i : Int))) :
    maxD l = d0 + ((l.length : Int) - 1) := by
  have hlen : 0 < l.length := List.length_pos.mpr hne
  have hlast : (l[l.length - 1]).1 = d0 + ((l.length - 1 : Nat) : Int) :=
    isDaily_get l d0 hmap (l.length - 1) (by omega)
  have hmem : l[l.length - 1] ∈ l := List.getElem_mem (by omega)
  have hge : d0 + ((l.length : Int) - 1) ≤ maxD l := by
    have := mem_le_maxD l (l[l.length - 1]) hmem
    omega
  have hle : maxD l ≤ d0 + ((l.length : Int) - 1) :=
    maxD_le l (l[l.length - 1]) hmem _ (fun x hx => (isDaily_bounds l d0 hmap x hx).2)
  omega

lemma gapFill_of_isDaily (l : List (Int × Nat)) (hd : IsDaily l) : gapFill l = l := by
  obtain ⟨hne, d0, hmap⟩ := hd
  have hlen : 0 < l.length := List.length_pos.mpr hne
  have hmin : minD l = d0 := isDaily_minD l d0 hne hmap
  have hmax : maxD l = d0 + ((l.length : Int) - 1) := isDaily_maxD l d0 hne hmap
  have hn : (maxD l - minD l).toNat + 1 = l.length := by omega
  have hnd : (l.map (fun r => r.1)).Nodup := by
    rw [hmap]
    exact (List.nodup_range _).map (fun a b hab => by omega)
  rw [gapFill_cons_eq l hne, hn, hmin]
  apply List.ext_get (by simp)
  intro n h1 h2
  simp only [List.get_eq_getElem, List.getElem_map, List.getElem_range]
  have hfst : (l[n]).1 = d0 + (n : Int) := isDaily_get l d0 hmap n h2
  have hsnd : qtyOn l (d0 + (n : Int)) = (l[n]).2 := by
    have h := qtyOn_of_nodup l hnd (l[n]) (List.getElem_mem h2)
    rw [hfst] at h
    exact h
  rw [hsnd, ← hfst]

/-! Nonnegativity of the rounded values. -/

lemma ratFloor_nonneg (q : ℚ) (hq : 0 ≤ q) : 0 ≤ ratFloor q :=
  Int.fdiv_nonneg (Rat.num_nonneg.mpr hq) (by exact_mod_cast Nat.zero_le q.den)

lemma pyRound_nonneg (q : ℚ) (hq : 0 ≤ q) : 0 ≤ pyRound q := by
  have h0 : 0 ≤ ratFloor q := ratFloor_nonneg q hq
  unfold pyRound
  split_ifs <;> omega

lemma listMean_nonneg (l : List ℚ) (h : ∀ x ∈ l, 0 ≤ x) : 0 ≤ listMean l :=
  div_nonneg (List.sum_nonneg h) (by exact_mod_cast Nat.zero_le l.length)

/-! Shape lemmas for the two forecast strategies. -/

lemma naiveForecast_cons (a : Int × Nat) (t : List (Int × Nat)) (daysAhead : Nat)
    (today : Int) :
    naiveForecast (a :: t) daysAhead today
      = (List.range daysAhead).map (fun i : Nat => (maxD (gapFill (a :: t)) + 1 + (i : Int),
          pyRound (if min 7 (gapFill (a :: t)).length = 0 then 0
            else listMean (((gapFill (a :: t)).map (fun r => (r.2 : ℚ))).drop
              ((gapFill (a :: t)).length - min 7 (gapFill (a :: t)).length))))) := rfl

lemma naiveForecast_length (history : List (Int × Nat)) (daysAhead : Nat) (today : Int) :
    (naiveForecast history daysAhead today).length = daysAhead := by
  cases history with
  | nil => simp [naiveForecast]
  | cons a t => rw [naiveForecast_cons]; simp

lemma naive_snd_nonneg (history : List (Int × Nat)) (daysAhead : Nat) (today : Int) :
    ∀ r ∈ naiveForecast history daysAhead today, 0 ≤ r.2 := by
  intro r hr
  cases history with
  | nil =>
    rcases List.mem_map.mp hr with ⟨i, -, he⟩
    rw [← he]
  | cons a t =>
    rw [naiveForecast_cons] at hr
    rcases List.mem_map.mp hr with ⟨i, -, he⟩
    rw [← he]
    apply pyRound_nonneg
    split_ifs with h
    · exact le_refl 0
    · apply listMean_nonneg
      intro x hx
      rcases List.mem_map.mp (List.mem_of_mem_drop hx) with ⟨y, -, hy⟩
      rw [← hy]
      exact Nat.cast_nonneg y.2

lemma naive_shape_daily (l : List (Int × Nat)) (H : Nat) (today : Int) (hd : IsDaily l) :
    (naiveForecast l H today).map (fun r => r.1)
      = (List.range H).map (fun i : Nat => maxD l + 1 + (i : Int)) := by
  have hg := gapFill_of_isDaily l hd
  obtain ⟨hne, -⟩ := hd
  cases l with
  | nil => exact absurd rfl hne
  | cons a t =>
    rw [naiveForecast_cons, hg, List.map_map]
    rfl

lemma naive_const_daily (l : List (Int × Nat)) (H : Nat) (today : Int) (hd : IsDaily l) :
    (naiveForecast l H today).map (fun r => r.2)
      = List.replicate H (pyRound (listMean
          ((l.map (fun r => (r.2 : ℚ))).drop (l.length - min 7 l.length)))) := by
  have hg := gapFill_of_isDaily l hd
  obtain ⟨hne, -⟩ := hd
  have hlen : 0 < l.length := List.length_pos.mpr hne
  cases l with
  | nil => exact absurd rfl hne
  | cons a t =>
    rw [naiveForecast_cons, hg, List.map_map]
    have hw : ¬ (min 7 (a :: t).length = 0) := by
      simp only [List.length_cons]
      omega
    simp only [if_neg hw]
    apply List.eq_replicate_iff.mpr
    constructor
    · simp
    · intro b hb
      rcases List.mem_map.mp hb with ⟨i, -, he⟩
      rw [← he]
      rfl

lemma prophetForecast_eq (series : List (Int × Nat)) (H : Nat) (yhat : Int → ℚ) :
    prophetForecast series H yhat
      = (List.range H).map (fun i : Nat => (maxD series + 1 + (i : Int),
          pyRound (max (yhat (maxD series + 1 + (i : Int))) 0))) := by
  unfold prophetForecast
  rw [List.filter_append]
  have h1 : (series.map (fun r => r.1)).filter (fun d => decide (maxD series < d)) = [] := by
    apply List.filter_eq_nil_iff.mpr
    intro d hd
    rcases List.mem_map.mp hd with ⟨x, hx, he⟩
    simp only [decide_eq_true_eq]
    rw [← he]
    exact not_lt.mpr (mem_le_maxD series x hx)
  have h2 : ((List.range H).map (fun i : Nat => maxD series + 1 + (i : Int))).filter
      (fun d => decide (maxD series < d))
      = (List.range H).map (fun i : Nat => maxD series + 1 + (i : Int)) := by
    apply List.filter_eq_self.mpr
    intro d hd
    rcases List.mem_map.mp hd with ⟨i, -, he⟩
    simp only [decide_eq_true_eq]
    omega
  rw [h1, h2, List.nil_append, List.map_map]
  rfl

/-- C1: for every daily series and horizon, the forecast operation of the
Forecasting page returns, whichever strategy is selected and whether or not
the Prophet fit succeeds, exactly horizon points whose dates are the horizon
consecutive days immediately after the last date of the series and whose
predicted quantities are non-negative integers. -/
theorem forecast_shape (useProphet : Bool) (series : List (Int × Nat)) (H : Nat)
    (pf : Except Unit (Int → ℚ)) (today : Int) (hd : IsDaily series) :
    (forecastEngine useProphet series H pf today).length = H ∧
    (forecastEngine useProphet series H pf today).map (fun r => r.1)
      = (List.range H).map (fun i : Nat => maxD series + 1 + (i : Int)) ∧
    ∀ r ∈ forecastEngine useProphet series H pf today, 0 ≤ r.2 := by
  unfold forecastEngine
  split_ifs with hcond
  · cases pf with
    | ok yhat =>
      dsimp only
      rw [prophetForecast_eq]
      refine ⟨by simp, by rw [List.map_map]; rfl, ?_⟩
      intro r hr
      rcases List.mem_map.mp hr with ⟨i, -, he⟩
      rw [← he]
      exact pyRound_nonneg _ (le_max_right _ _)
    | error e =>
      dsimp only
      exact ⟨naiveForecast_length series H today, naive_shape_daily series H today hd,
        naive_snd_nonneg series H today⟩
  · exact ⟨naiveForecast_length series H today, naive_shape_daily series H today hd,
      naive_snd_nonneg series H today⟩

/-- C1 witness: a concrete single-point daily series, horizon 2, fallback
path. -/
theorem forecast_shape_witness :
    (forecastEngine false [((0 : Int), (5 : Nat))] 2 (Except.error ()) 0).length = 2 ∧
    (forecastEngine false [((0 : Int), (5 : Nat))] 2 (Except.error ()) 0).map (fun r => r.1)
      = (List.range 2).map (fun i : Nat => maxD [((0 : Int), (5 : Nat))] + 1 + (i : Int)) ∧
    ∀ r ∈ forecastEngine false [((0 : Int), (5 : Nat))] 2 (Except.error ()) 0, 0 ≤ r.2 :=
  forecast_shape false [((0 : Int), (5 : Nat))] 2 (Except.error ()) 0
    ⟨by simp, 0, by decide⟩

lemma pyRound_mean_single : pyRound (listMean [(5 : ℚ)]) = 5 := by
  have h1 : listMean [(5 : ℚ)] = 5 := by
    simp [listMean]
  rw [h1]
  have h2 : ratFloor 5 = 5 := by
    simp [ratFloor, Rat.num_ofNat, Rat.den_ofNat]
  unfold pyRound
  rw [h2]
  norm_num

/-- C2: the naive fallback gives every one of its points the same value, the
rounded mean of the last min(7, length) daily quantities; on an empty series
every value is 0; on the single-point series with quantity 5 and horizon 3 all
three values are 5. -/
theorem naive_fallback_constant :
    (∀ series H today, IsDaily series →
      (naiveForecast series H today).map (fun r => r.2)
        = List.replicate H (pyRound (listMean
            ((series.map (fun r => (r.2 : ℚ))).drop (series.length - min 7 series.length))))) ∧
    (∀ H today, (naiveForecast [] H today).map (fun r => r.2) = List.replicate H 0) ∧
    (∀ d today, (naiveForecast [(d, 5)] 3 today).map (fun r => r.2) = [5, 5, 5]) := by
  refine ⟨fun series H today hd => naive_const_daily series H today hd, ?_, ?_⟩
  · intro H today
    simp only [naiveForecast, List.map_map]
    apply List.eq_replicate_iff.mpr
    refine ⟨by simp, ?_⟩
    intro b hb
    rcases List.mem_map.mp hb with ⟨i, -, he⟩
    rw [← he]
    rfl
  · intro d today
    rw [naive_const_daily [(d, 5)] 3 today ⟨List.cons_ne_nil _ _, d, by simp [List.range_succ]⟩]
    norm_num
    rw [pyRound_mean_single]
    decide

/-- C2 witness: the first part applied at the concrete series [(0, 5)]. -/
theorem naive_fallback_constant_witness :
    (naiveForecast [((0 : Int), (5 : Nat))] 3 0).map (fun r => r.2)
      = List.replicate 3 (pyRound (listMean
          (([((0 : Int), (5 : Nat))].map (fun r => (r.2 : ℚ))).drop
            ([((0 : Int), (5 : Nat))].length - min 7 [((0 : Int), (5 : Nat))].length)))) :=
  naive_fallback_constant.1 [((0 : Int), (5 : Nat))] 3 0 ⟨by simp, 0, by decide⟩

/-- C3: a runtime failure of the Prophet fitting or prediction step is caught
and the engine returns the naive fallback forecast for the same series and
horizon; the failure never propagates and a forecast is always produced. -/
theorem prophet_failure_falls_back (useProphet : Bool) (series : List (Int × Nat))
    (horizon : Nat) (e : Unit) (today : Int) :
    forecastEngine useProphet series horizon (Except.error e) today
      = naiveForecast series horizon today := by
  unfold forecastEngine
  split <;> rfl

/-- C4: stock health is Critical when current stock is at most 0 regardless of
the reorder point, otherwise Low when strictly below the reorder point,
otherwise Healthy; stock exactly equal to the reorder point is Healthy, and
with reorder point 30, stock 30 is Healthy, 29 is Low, 0 is Critical. -/
theorem health_classification (currentStock : Int) (reorderPoint : ℚ) :
    ((health_and_color currentStock reorderPoint).1 = Health.Critical ↔ currentStock ≤ 0) ∧
    ((health_and_color currentStock reorderPoint).1 = Health.Low ↔
      0 < currentStock ∧ (currentStock : ℚ) < reorderPoint) ∧
    ((health_and_color currentStock reorderPoint).1 = Health.Healthy ↔
      0 < currentStock ∧ reorderPoint ≤ (currentStock : ℚ)) ∧
    (health_and_color 30 30).1 = Health.Healthy ∧
    (health_and_color 29 30).1 = Health.Low ∧
    (health_and_color 0 reorderPoint).1 = Health.Critical := by
  refine ⟨?_, ?_, ?_, by norm_num [health_and_color], by norm_num [health_and_color],
    by norm_num [health_and_color]⟩ <;>
  · unfold health_and_color
    split_ifs with h1 h2 <;> simp_all

/-- C5: the Forecasting page sets the average daily demand to the arithmetic
mean of the predicted quantities of the forecast (0 when the forecast is
empty) and the reorder point to that average times the lead time. -/
theorem page_reorder_metrics (fc : List (Int × Int)) (lead : Nat) :
    pageReorderPoint fc lead = pageAvgDemand fc * (lead : ℚ) ∧
    pageAvgDemand [] = 0 ∧
    (fc ≠ [] → pageAvgDemand fc
      = (fc.map (fun r => (r.2 : ℚ))).sum / ((fc.length : Nat) : ℚ)) := by
  refine ⟨rfl, by simp [pageAvgDemand], ?_⟩
  intro hne
  have hpos : 0 < fc.length := List.length_pos.mpr hne
  rw [pageAvgDemand, if_pos hpos, listMean]
  simp

/-- C5 witness: a concrete two-point forecast with lead time 3. -/
theorem page_reorder_metrics_witness :
    pageAvgDemand [((1 : Int), (4 : Int)), ((2 : Int), (6 : Int))]
      = (([((1 : Int), (4 : Int)), ((2 : Int), (6 : Int))].map (fun r => (r.2 : ℚ))).sum)
        / ((([((1 : Int), (4 : Int)), ((2 : Int), (6 : Int))] : List (Int × Int)).length : Nat) : ℚ) :=
  (page_reorder_metrics [((1 : Int), (4 : Int)), ((2 : Int), (6 : Int))] 3).2.2 (by simp)

/-- C9: the daily-series build fails with InsufficientDataError exactly when
zero rows are supplied; with at least one row it succeeds. -/
theorem build_fails_iff_empty (rows : List (Int × Nat)) :
    (buildDailySeries rows = Except.error "InsufficientDataError" ↔ rows = []) ∧
    ((∃ s, buildDailySeries rows = Except.ok s) ↔ rows ≠ []) := by
  cases rows with
  | nil => simp [buildDailySeries]
  | cons r rs => simp [buildDailySeries]

/-- C7: for a non-empty set of per-product rows, the built daily series has
one entry per date, with dates consecutive (hence strictly increasing, no
duplicates) from the min date, covering the inclusive span up to the max date,
and every entry carries the sum of the row quantities at its date (so dates
with no rows carry 0). -/
theorem daily_series_shape (rows : List (Int × Nat)) (hne : rows ≠ []) :
    ∃ s, buildDailySeries rows = Except.ok s ∧
      s.length = (maxD rows - minD rows).toNat + 1 ∧
      s.map (fun r => r.1) = (List.range s.length).map (fun i : Nat => minD rows + (i : Int)) ∧
      (s.map (fun r => r.1)).Nodup ∧
      (∀ r ∈ s, r.2 = qtyOn rows r.1) := by
  refine ⟨gapFill rows, ?_, ?_, ?_, ?_, ?_⟩
  · rw [buildDailySeries, if_neg (by simpa using hne)]
  · rw [gapFill_cons_eq rows hne]
    simp
  · rw [gapFill_cons_eq rows hne, List.map_map]
    have hlen : (gapFill rows).length = (maxD rows - minD rows).toNat + 1 := by
      rw [gapFill_cons_eq rows hne]
      simp
    rw [gapFill_cons_eq rows hne, hlen] at *
    rfl
  · rw [gapFill_cons_eq rows hne, List.map_map]
    have hcomp : ((fun r : Int × Nat => r.1) ∘
        (fun i : Nat => (minD rows + (i : Int), qtyOn rows (minD rows + (i : Int)))))
        = fun i : Nat => minD rows + (i : Int) := rfl
    rw [hcomp]
    exact (List.nodup_range _).map (fun a b hab => by omega)
  · intro r hr
    rw [gapFill_cons_eq rows hne] at hr
    rcases List.mem_map.mp hr with ⟨i, -, he⟩
    rw [← he]

/-- C7 witness: rows on days 0 and 2 with a gap at day 1. -/
theorem daily_series_shape_witness :
    ∃ s, buildDailySeries [((0 : Int), (3 : Nat)), ((2 : Int), (1 : Nat))] = Except.ok s ∧
      s.length = (maxD [((0 : Int), (3 : Nat)), ((2 : Int), (1 : Nat))]
        - minD [((0 : Int), (3 : Nat)), ((2 : Int), (1 : Nat))]).toNat + 1 ∧
      s.map (fun r => r.1) = (List.range s.length).map
        (fun i : Nat => minD [((0 : Int), (3 : Nat)), ((2 : Int), (1 : Nat))] + (i : Int)) ∧
      (s.map (fun r => r.1)).Nodup ∧
      (∀ r ∈ s, r.2 = qtyOn [((0 : Int), (3 : Nat)), ((2 : Int), (1 : Nat))] r.1) :=
  daily_series_shape [((0 : Int), (3 : Nat)), ((2 : Int), (1 : Nat))] (by simp)

/-! Lemmas about the summarizer merge. -/

lemma find?_pairs_eq_none (qs : List String) (f : String → Nat) (p : String)
    (h : p ∉ qs) :
    (qs.map (fun q => (q, f q))).find? (fun r => decide (r.1 = p)) = none := by
  apply List.find?_eq_none.mpr
  intro x hx
  rcases List.mem_map.mp hx with ⟨q, hq, he⟩
  rw [← he]
  simp only [decide_eq_true_eq]
  intro he2
  exact h (he2 ▸ hq)

lemma lookupD_pairs_of_not_mem (qs : List String) (f : String → Nat) (p : String)
    (h : p ∉ qs) : lookupD (qs.map (fun q => (q, f q))) p = 0 := by
  rw [lookupD, find?_pairs_eq_none qs f p h]

lemma lookupD_pairs_of_mem (qs : List String) (f : String → Nat) (p : String)
    (hp : p ∈ qs) : lookupD (qs.map (fun q => (q, f q))) p = f p := by
  induction qs with
  | nil => cases hp
  | cons q rest ih =>
    by_cases h : q = p
    · subst h
      simp [lookupD, List.find?_cons]
    · have hp2 : p ∈ rest := by
        rcases List.mem_cons.mp hp with h2 | h2
        · exact absurd h2.symm h
        · exact h2
      have hstep : lookupD ((q :: rest).map (fun x => (x, f x))) p
          = lookupD (rest.map (fun x => (x, f x))) p := by
        simp [lookupD, List.find?_cons, h]
      rw [hstep, ih hp2]

lemma totalSoldOf_eq_zero (evs : List SaleEvent) (p : String)
    (h : p ∉ productsOf evs) : totalSoldOf evs p = 0 := by
  have hf : evs.filter (fun e => decide (e.product = p)) = [] := by
    apply List.filter_eq_nil_iff.mpr
    intro e he
    simp only [decide_eq_true_eq]
    intro hep
    apply h
    rw [productsOf, List.mem_dedup]
    exact hep ▸ List.mem_map_of_mem (fun e => e.product) he
  simp [totalSoldOf, hf]

lemma lookupD_recentPairs (evs : List SaleEvent) (rf : Int) (p : String) :
    lookupD (recentPairs evs rf) p = totalSoldOf (recentEvents evs rf) p := by
  rw [recentPairs]
  by_cases h : p ∈ productsOf (recentEvents evs rf)
  · exact lookupD_pairs_of_mem _ _ p h
  · rw [lookupD_pairs_of_not_mem _ _ p h, totalSoldOf_eq_zero _ p h]

lemma sublist_sum_le (l1 l2 : List Nat) (h : l1.Sublist l2) : l1.sum ≤ l2.sum := by
  induction h with
  | slnil => exact le_refl 0
  | cons a h ih => simp only [List.sum_cons]; omega
  | cons₂ a h ih => simp only [List.sum_cons]; omega

lemma recent_sold_le_total_sold (evs : List SaleEvent) (rf : Int) (p : String) :
    totalSoldOf (recentEvents evs rf) p ≤ totalSoldOf evs p := by
  apply sublist_sum_le
  apply List.Sublist.map
  exact List.Sublist.filter _ (List.filter_sublist evs)

lemma summarize_mem (evs : List SaleEvent) (stock : String → Option Nat)
    (windowDays : Int) (lead : Nat) (today : Int) (s : ProductSummary)
    (hs : s ∈ summarize evs stock windowDays lead today) :
    ∃ p ∈ productsOf evs,
      s.product = p ∧
      s.totalSold = totalSoldOf evs p ∧
      s.soldRecent = lookupD (recentPairs evs (today - windowDays)) p ∧
      s.avgDailyRecent = (s.soldRecent : ℚ)
        / (if 0 < windowDays then (windowDays : ℚ) else 1) ∧
      s.currentStock = (stock p).getD 0 := by
  rcases List.mem_map.mp hs with ⟨p, hp, he⟩
  subst he
  exact ⟨p, hp, rfl, rfl, rfl, rfl, rfl⟩

/-- C6: every dashboard summary row carries recent_sold equal to the sum of
that product's quantities inside the recent window, avg_daily_recent equal to
recent_sold divided by the window size (a window of 0 or less treated as 1),
and current stock 0 when the product is absent from the stock map; for
quantities 3, 5, 2 all inside a 14-day window the row shows recent_sold 10 and
avg_daily_recent 10/14. -/
theorem summarize_fields (evs : List SaleEvent) (stock : String → Option Nat)
    (windowDays : Int) (lead : Nat) (today : Int) (s : ProductSummary)
    (hs : s ∈ summarize evs stock windowDays lead today) :
    (s.soldRecent = totalSoldOf (recentEvents evs (today - windowDays)) s.product ∧
     s.avgDailyRecent = (s.soldRecent : ℚ)
       / (if 0 < windowDays then (windowDays : ℚ) else 1) ∧
     (stock s.product = none → s.currentStock = 0)) ∧
    (summarize [⟨0, "X", 3⟩, ⟨0, "X", 5⟩, ⟨0, "X", 2⟩] (fun _ => none) 14 3 0).map
      (fun t => (t.soldRecent, t.avgDailyRecent)) = [((10 : Nat), (10 : ℚ) / 14)] := by
  constructor
  · rcases summarize_mem evs stock windowDays lead today s hs with
      ⟨p, hp, hprod, -, hsr, havg, hcs⟩
    refine ⟨?_, havg, ?_⟩
    · rw [hprod, hsr, lookupD_recentPairs]
    · intro hnone
      rw [hprod] at hnone
      rw [hcs, hnone]
      rfl
  · simp [summarize, recentPairs, recentEvents, productsOf, totalSoldOf, lookupD]

/-- C6 witness: a single product with one event of quantity 14 inside a 14-day
window, no stock entry. -/
theorem summarize_fields_witness :
    ((⟨"X", 14, 14, 1, 0, 3, Health.Critical⟩ : ProductSummary).soldRecent
        = totalSoldOf (recentEvents [⟨0, "X", 14⟩] ((0 : Int) - 14))
            (⟨"X", 14, 14, 1, 0, 3, Health.Critical⟩ : ProductSummary).product ∧
      (⟨"X", 14, 14, 1, 0, 3, Health.Critical⟩ : ProductSummary).avgDailyRecent
        = (((⟨"X", 14, 14, 1, 0, 3, Health.Critical⟩ : ProductSummary).soldRecent : Nat) : ℚ)
          / (if 0 < (14 : Int) then ((14 : Int) : ℚ) else 1) ∧
      ((fun _ : String => (none : Option Nat))
          (⟨"X", 14, 14, 1, 0, 3, Health.Critical⟩ : ProductSummary).product = none →
        (⟨"X", 14, 14, 1, 0, 3, Health.Critical⟩ : ProductSummary).currentStock = 0)) ∧
    (summarize [⟨0, "X", 3⟩, ⟨0, "X", 5⟩, ⟨0, "X", 2⟩] (fun _ => none) 14 3 0).map
      (fun t => (t.soldRecent, t.avgDailyRecent)) = [((10 : Nat), (10 : ℚ) / 14)] :=
  summarize_fields [⟨0, "X", 14⟩] (fun _ => none) 14 3 0
    ⟨"X", 14, 14, 1, 0, 3, Health.Critical⟩
    (by simp [summarize, recentPairs, recentEvents, productsOf, totalSoldOf, lookupD,
      health_and_color])

/-- C10: in every dashboard summary row the recent-window sales are at most
the total sales, since the recent window sums a date-filtered subset of the
same events. -/
theorem summary_recent_le_total (evs : List SaleEvent) (stock : String → Option Nat)
    (windowDays : Int) (lead : Nat) (today : Int) (s : ProductSummary)
    (hs : s ∈ summarize evs stock windowDays lead today) :
    s.soldRecent ≤ s.totalSold := by
  rcases List.mem_map.mp hs with ⟨p, hp, he⟩
  subst he
  show lookupD (recentPairs evs (today - windowDays)) p ≤ totalSoldOf evs p
  rw [lookupD_recentPairs]
  exact recent_sold_le_total_sold evs (today - windowDays) p

/-- C10 witness: a two-event history where one event falls outside the recent
window. -/
theorem summary_recent_le_total_witness :
    (⟨"Y", 9, 2, 2, 0, 0, Health.Critical⟩ : ProductSummary).soldRecent
      ≤ (⟨"Y", 9, 2, 2, 0, 0, Health.Critical⟩ : ProductSummary).totalSold :=
  summary_recent_le_total [⟨-5, "Y", 7⟩, ⟨0, "Y", 2⟩] (fun _ => none) 1 0 0
    ⟨"Y", 9, 2, 2, 0, 0, Health.Critical⟩
    (by simp [summarize, recentPairs, recentEvents, productsOf, totalSoldOf, lookupD,
      health_and_color])

end SmartShop
